import Mathlib

/-!
Verification of the alias-resolution and trigger-scanning core of the
obsidian-redirect plugin (`src/main.ts`), as a shallow embedding in Lean.

The embedding models:
  * the JS string primitives the code relies on (ASCII `toLowerCase`,
    `split(/\s{1,}/)`, `contains`/`includes`, `lastIndexOf`);
  * the frontmatter shapes the code inspects (absent / null / scalar string /
    array of possibly-null strings) together with JS truthiness, since the
    code selects fields with `||`;
  * `getRedirectFiles` (main.ts lines 155-267): normalization, the
    alias-by-target cartesian product, link resolution, the self-redirect and
    null filters, the query filter, and the `limitToNonMarkdown` filter;
  * `RedirectEditorSuggester.onTrigger` (main.ts lines 805-844) together with
    `escapeRegExp` (lines 786-788): since the trigger string is regex-escaped,
    `subString.match(...)` is a literal substring test, which is how it is
    modelled here.

Host collaborators (`metadataCache.getFileCache`, `getFirstLinkpathDest`,
`vault.getResourcePath`) are opaque in the source and are passed as explicit
function parameters.
-/

/-- ASCII whitespace characters matched by the JS regex class `\s`
(space, tab, line feed, carriage return, vertical tab, form feed). -/
def isWs (c : Char) : Bool :=
  c == ' ' || c == '\t' || c == '\n' || c == '\r' || c == '\x0b' || c == '\x0c'

/-- ASCII model of JS `String.prototype.toLowerCase` on a single character:
uppercase ASCII letters map to their lowercase form, all else is unchanged. -/
def lowerChar (c : Char) : Char :=
  match c with
  | 'A' => 'a' | 'B' => 'b' | 'C' => 'c' | 'D' => 'd' | 'E' => 'e' | 'F' => 'f'
  | 'G' => 'g' | 'H' => 'h' | 'I' => 'i' | 'J' => 'j' | 'K' => 'k' | 'L' => 'l'
  | 'M' => 'm' | 'N' => 'n' | 'O' => 'o' | 'P' => 'p' | 'Q' => 'q' | 'R' => 'r'
  | 'S' => 's' | 'T' => 't' | 'U' => 'u' | 'V' => 'v' | 'W' => 'w' | 'X' => 'x'
  | 'Y' => 'y' | 'Z' => 'z'
  | c => c

/-- ASCII model of JS `toLowerCase` on a whole string. -/
def lowerStr (s : String) : String := ⟨s.data.map lowerChar⟩

/-- JS `hay.contains(needle)` (Obsidian's polyfill of `String.includes`):
substring containment, expressed on character lists. -/
def containsSub (hay needle : List Char) : Bool :=
  (List.range (hay.length + 1)).any (fun i => needle.isPrefixOf (hay.drop i))

/-- JS `str.split(/\s{1,}/)` generalized over the separator class: split on
maximal runs of characters satisfying `p`, keeping the (possibly empty)
fragments between, before and after the runs, exactly as JS `split` does. -/
def splitRuns (p : Char → Bool) : List Char → List (List Char)
  | [] => [[]]
  | c :: cs =>
    if p c then
      match cs with
      | [] => [[], []]
      | d :: _ => if p d then splitRuns p cs else [] :: splitRuns p cs
    else
      match splitRuns p cs with
      | [] => [[c]]
      | t :: ts => (c :: t) :: ts

/-- JS `str.split(sep)` for a single-character separator: split at every
occurrence of `sep`, keeping empty fragments, exactly as JS `split` does. -/
def splitChar (sep : Char) : List Char → List (List Char)
  | [] => [[]]
  | c :: cs =>
    if c == sep then [] :: splitChar sep cs
    else
      match splitChar sep cs with
      | [] => [[c]]
      | t :: ts => (c :: t) :: ts

/-- A vault file handle: Obsidian's `TFile`, restricted to the fields the
resolver reads (`path` and `basename`). Paths are unique in a vault, so
structural equality models the reference equality `===` the code uses. -/
structure TFile where
  path : String
  basename : String
deriving DecidableEq, Repr

/-- An element of a frontmatter array: YAML `null` or a string. -/
inductive FMItem where
  | null
  | str (s : String)
deriving DecidableEq, Repr

/-- A frontmatter field value: YAML `null`, a scalar string, or an array. -/
inductive FMValue where
  | null
  | str (s : String)
  | arr (items : List FMItem)
deriving DecidableEq, Repr

/-- The frontmatter fields `getRedirectFiles` inspects; `none` is an absent
key (JS `undefined`). -/
structure FrontMatter where
  «alias» : Option FMValue := none
  aliases : Option FMValue := none
  redirect : Option FMValue := none
  redirects : Option FMValue := none
deriving DecidableEq, Repr

/-- The `SuggestionObject` record built by `getRedirectFiles`
(main.ts lines 23-31 and 216-224). -/
structure SuggestionObject where
  «alias» : String
  path : String
  originTFile : TFile
  isAlias : Bool
  embedPath : String
  extension : String
  redirectTFile : TFile
deriving DecidableEq, Repr

/-- The host collaborators `getRedirectFiles` calls:
`metadataCache.getFileCache(file)?.frontmatter`,
`metadataCache.getFirstLinkpathDest(linkpath, sourcePath)` and
`vault.getResourcePath(file)`. -/
structure Host where
  metaOf : TFile → Option FrontMatter
  resolve : String → String → Option TFile
  embed : TFile → String

/-- JS truthiness of an optional frontmatter value: `undefined`, `null` and
`""` are falsy; every other string and every array (even empty) is truthy. -/
def truthyFM : Option FMValue → Bool
  | none => false
  | some .null => false
  | some (.str s) => !(s == "")
  | some (.arr _) => true

/-- The `a || b` selection the code uses on frontmatter fields: the first
truthy operand, else `none` (so that the caller supplies its default). -/
def selectFM (first second : Option FMValue) : Option FMValue :=
  if truthyFM first then first else if truthyFM second then second else none

/-- Keep a string array element, drop a null one (the
`filter(x => x !== null && x !== undefined)` steps). -/
def itemToStr : FMItem → Option String
  | .null => none
  | .str s => some s

/-- Coerce a (truthy) frontmatter value to a string list: a scalar becomes a
one-element list, an array keeps its string members and drops null members. -/
def fmToList : FMValue → List String
  | .null => []
  | .str s => [s]
  | .arr items => items.filterMap itemToStr

/-- main.ts lines 166-174: `frontMatter?.alias || frontMatter?.aliases || []`,
scalar coercion, and the null filter. -/
def aliasesOf (fm : Option FrontMatter) : List String :=
  match selectFM (fm.bind FrontMatter.«alias») (fm.bind FrontMatter.aliases) with
  | some v => fmToList v
  | none => []

/-- main.ts lines 175-186: `frontMatter?.redirects || frontMatter?.redirect ||
(limitToRedirectedFiles ? [] : [file.path])`, scalar coercion, null filter.
Note the plural key is consulted first. -/
def redirectsOf (fm : Option FrontMatter) (limitToRedirectedFiles : Bool)
    (path : String) : List String :=
  match selectFM (fm.bind FrontMatter.redirects) (fm.bind FrontMatter.redirect) with
  | some v => fmToList v
  | none => if limitToRedirectedFiles then [] else [path]

/-- main.ts lines 216-224: the record built for one (alias, redirect) pair
once `getFirstLinkpathDest` has resolved the redirect text to `tf`. -/
def mkEntry (embed : TFile → String) (file : TFile) (a r : String)
    (tf : TFile) : SuggestionObject :=
  { «alias» := a
    path := r
    originTFile := file
    embedPath := embed tf
    isAlias := a != file.basename
    extension := ⟨(splitChar '.' r.data).getLastD []⟩
    redirectTFile := tf }

/-- main.ts lines 200-225: resolve one redirect text against the declaring
file's path; an unresolvable link yields `undefined` (here `none`). -/
def resolveEntry (host : Host) (file : TFile) (a r : String) :
    Option SuggestionObject :=
  match host.resolve r file.path with
  | none => none
  | some tf => some (mkEntry host.embed file a r tf)

/-- main.ts lines 192-225: the row of candidate entries for one alias name;
an empty alias contributes the single element `null`. -/
def aliasRow (host : Host) (file : TFile) (redirects : List String)
    (a : String) : List (Option SuggestionObject) :=
  if a = "" then [none] else redirects.map (resolveEntry host file a)

/-- main.ts lines 241-252: the query filter. An absent or empty filter string
is falsy and matches everything; otherwise the lowercased filter string is
split on whitespace runs and every word must be contained in the lowercased
alias or the lowercased (declared-target) path. -/
def entryMatches (filterString : Option String) (e : SuggestionObject) : Bool :=
  match filterString with
  | none => true
  | some q =>
    if q == "" then true
    else
      (splitRuns isWs (lowerStr q).data).all (fun w =>
        containsSub (lowerStr e.«alias»).data w ||
        containsSub (lowerStr e.path).data w)

/-- main.ts lines 229-253: the per-entry filter: drop `undefined`/`null`
entries, drop self-redirects (`originTFile === redirectTFile`), then apply
the query filter. -/
def entryKeep (filterString : Option String) (x : Option SuggestionObject) :
    Bool :=
  match x with
  | none => false
  | some e =>
    if e.originTFile = e.redirectTFile then false else entryMatches filterString e

/-- main.ts lines 162-255: all surviving entries contributed by one file. -/
def fileEntries (host : Host) (limitToRedirectedFiles : Bool)
    (filterString : Option String) (file : TFile) :
    List (Option SuggestionObject) :=
  (((aliasesOf (host.metaOf file) ++ [file.basename]).map
      (aliasRow host file
        (redirectsOf (host.metaOf file) limitToRedirectedFiles file.path))).flatten).filter
    (entryKeep filterString)

/-- main.ts lines 161-259: the whole gathering pipeline before the
`limitToNonMarkdown` filter (`redirectsGathered` in the source). -/
def redirectsGathered (host : Host) (files : List TFile)
    (limitToRedirectedFiles : Bool) (filterString : Option String) :
    List SuggestionObject :=
  (((files.map (fileEntries host limitToRedirectedFiles filterString)).filter
      (fun l => !l.isEmpty)).flatten).filterMap id

/-- main.ts lines 155-267: `getRedirectFiles`, including the
`limitToNonMarkdown` filter (`redirect?.extension && !(redirect.extension
=== "md")`, truthiness of the extension included). -/
def getRedirectFiles (limitToNonMarkdown : Bool) (host : Host)
    (files : List TFile) (limitToRedirectedFiles : Bool)
    (filterString : Option String) : List SuggestionObject :=
  if limitToNonMarkdown then
    (redirectsGathered host files limitToRedirectedFiles filterString).filter
      (fun r => !(r.extension == "") && !(r.extension == "md"))
  else redirectsGathered host files limitToRedirectedFiles filterString

/-- The span/query record `onTrigger` returns (`EditorSuggestTriggerInfo`,
both positions being on the cursor's line, only the column offsets are kept). -/
structure TriggerInfo where
  start : Nat
  endCh : Nat
  query : String
deriving DecidableEq, Repr

/-- main.ts lines 816-818: `triggerString.match(/\[{1,}$/)` — the length of
the maximal trailing run of opening brackets of the trigger string. -/
def trailingOpenBrackets (trigger : String) : Nat :=
  (trigger.data.reverse.takeWhile (fun c => c == '[')).length

/-- JS `hay.lastIndexOf(needle)`: the largest index at which `needle` starts
inside `hay`, or `none` when `needle` does not occur. -/
def lastIndexOfQ (hay needle : List Char) : Option Nat :=
  ((List.range (hay.length + 1)).filter
    (fun i => needle.isPrefixOf (hay.drop i))).getLast?

/-- main.ts lines 805-844: `RedirectEditorSuggester.onTrigger`. The trigger
string is regex-escaped (lines 786-788), so `subString.match(...)` is a
literal search whose match text is the trigger string itself; `if (match)` is
falsy both when there is no occurrence and when the trigger string is empty.
`start` comes from `subString.lastIndexOf(match)`; `end` extends one column
past the cursor only when the trigger has a trailing `[` run, the line
continues past the cursor, and the single character `getRange` reads equals
`"]".repeat(run length)`; `query` is the text from the end of the last
occurrence to the cursor. -/
def onTrigger (line : String) (cursorCh : Nat) (trigger : String) :
    Option TriggerInfo :=
  if trigger = "" then none
  else
    match lastIndexOfQ (line.data.take cursorCh) trigger.data with
    | none => none
    | some i =>
      some
        { start := i
          endCh :=
            if 1 ≤ trailingOpenBrackets trigger ∧ cursorCh < line.data.length ∧
                (line.data.drop cursorCh).take 1 =
                  List.replicate (trailingOpenBrackets trigger) ']' then
              cursorCh + 1
            else cursorCh
          query := ⟨(line.data.take cursorCh).drop (i + trigger.data.length)⟩ }

example : splitRuns isWs "cat  png".data = ["cat".data, "png".data] := by decide
example : splitRuns isWs " ".data = [[], []] := by decide
example : splitRuns isWs "".data = [[]] := by decide
example : containsSub "img/cat.png".data "png".data = true := by decide
example : containsSub "cat photo".data "jpg".data = false := by decide
example : lastIndexOfQ "r[a r[b".data "r[".data = some 4 := by decide
example : onTrigger "see r[fo" 8 "r[" = some ⟨4, 8, "fo"⟩ := by decide
example : onTrigger "see r[f]" 7 "r[" = some ⟨4, 8, "f"⟩ := by decide
example : onTrigger "hello" 5 "r[" = none := by decide

/-- The entry of the spec's query-filter example: alias "Cat Photo",
declared target "img/cat.png". -/
def catEntry : SuggestionObject :=
  { «alias» := "Cat Photo"
    path := "img/cat.png"
    originTFile := ⟨"Cat Photo.md", "Cat Photo"⟩
    isAlias := false
    embedPath := ""
    extension := "png"
    redirectTFile := ⟨"img/cat.png", "cat"⟩ }

/-- The markdown note of the spec's end-to-end scenario. -/
def fileA : TFile := ⟨"A.md", "A"⟩

/-- The attachment of the spec's end-to-end scenario. -/
def fileImg : TFile := ⟨"img/x.png", "x"⟩

/-- Frontmatter of A.md in the end-to-end scenario:
`redirects: ["img/x.png"]`. -/
def fmA : FrontMatter := { redirects := some (.arr [.str "img/x.png"]) }

/-- Host for the end-to-end scenario: A.md carries `fmA`, img/x.png has no
frontmatter, and the link text "img/x.png" resolves to the attachment from
anywhere. -/
def host9 : Host :=
  { metaOf := fun f => if f = fileA then some fmA else none
    resolve := fun r _ => if r = "img/x.png" then some fileImg else none
    embed := fun f => f.path }

/-- The single entry the resolver produces in the end-to-end scenario. -/
def entryA9 : SuggestionObject := mkEntry host9.embed fileA "A" "img/x.png" fileImg

example : getRedirectFiles false host9 [fileA, fileImg] false none = [entryA9] := by decide
example : entryA9.isAlias = false := by decide

/-- A note declaring both a singular and a plural redirect field with
different values (the precedence scenario). -/
def fileF : TFile := ⟨"F.md", "F"⟩

/-- Resolution target of the singular `redirect` field of F.md. -/
def fileTa : TFile := ⟨"a.png", "a"⟩

/-- Resolution target of the plural `redirects` field of F.md. -/
def fileTb : TFile := ⟨"b.png", "b"⟩

/-- Frontmatter of F.md: `redirect: "a.png"` and `redirects: "b.png"`. -/
def fmF : FrontMatter :=
  { redirect := some (.str "a.png"), redirects := some (.str "b.png") }

/-- Host for the precedence scenario. -/
def host7 : Host :=
  { metaOf := fun f => if f = fileF then some fmF else none
    resolve := fun r _ =>
      if r = "a.png" then some fileTa
      else if r = "b.png" then some fileTb
      else none
    embed := fun f => f.path }

example : getRedirectFiles false host7 [fileF] true none =
    [mkEntry host7.embed fileF "F" "b.png" fileTb] := by decide

/-- A note whose frontmatter declares the same alias twice (the
duplicate-entries scenario). -/
def fileB : TFile := ⟨"B.md", "B"⟩

/-- Resolution target of B.md's redirect declaration. -/
def fileT : TFile := ⟨"t.png", "t"⟩

/-- Frontmatter of B.md: `aliases: ["n", "n"]`, `redirects: "t.png"`. -/
def fmB : FrontMatter :=
  { aliases := some (.arr [.str "n", .str "n"]), redirects := some (.str "t.png") }

/-- Frontmatter variant with two distinct aliases for the same target:
`aliases: ["m", "n"]`, `redirects: "t.png"`. -/
def fmB2 : FrontMatter :=
  { aliases := some (.arr [.str "m", .str "n"]), redirects := some (.str "t.png") }

/-- Host for the duplicate-alias scenario. -/
def host8 : Host :=
  { metaOf := fun f => if f = fileB then some fmB else none
    resolve := fun r _ => if r = "t.png" then some fileT else none
    embed := fun f => f.path }

/-- Host for the distinct-alias scenario. -/
def host8b : Host :=
  { metaOf := fun f => if f = fileB then some fmB2 else none
    resolve := fun r _ => if r = "t.png" then some fileT else none
    embed := fun f => f.path }

example : getRedirectFiles false host8 [fileB] true none =
    [mkEntry host8.embed fileB "n" "t.png" fileT,
     mkEntry host8.embed fileB "n" "t.png" fileT,
     mkEntry host8.embed fileB "B" "t.png" fileT] := by decide

example : getRedirectFiles false host8b [fileB] true none =
    [mkEntry host8b.embed fileB "m" "t.png" fileT,
     mkEntry host8b.embed fileB "n" "t.png" fileT,
     mkEntry host8b.embed fileB "B" "t.png" fileT] := by decide

/-- A note whose declared target ends in a dot, so the target's computed
extension is the empty string. -/
def fileC : TFile := ⟨"C.md", "C"⟩

/-- The file the dot-terminated link text resolves to. -/
def fileX : TFile := ⟨"x.", "x"⟩

/-- Frontmatter of C.md: `redirects: "x."`. -/
def fmC : FrontMatter := { redirects := some (.str "x.") }

/-- Host for the empty-extension scenario. -/
def host6 : Host :=
  { metaOf := fun f => if f = fileC then some fmC else none
    resolve := fun r _ => if r = "x." then some fileX else none
    embed := fun f => f.path }

example : redirectsGathered host6 [fileC] true none =
    [mkEntry host6.embed fileC "C" "x." fileX] := by decide
example : (mkEntry host6.embed fileC "C" "x." fileX).extension = "" := by decide
example : getRedirectFiles true host6 [fileC] true none = [] := by decide

/-- Modelled from the spec's words for the query-filter claim (refinement
comparison only): a token matches case-insensitively when its lowercased
text occurs inside the lowercased candidate text. -/
def ciSubstr (needle hay : String) : Bool :=
  containsSub (lowerStr hay).data (lowerStr needle).data

/-- Modelled from the spec's words for the query-filter claim (refinement
comparison only): the word tokens of a query, splitting on runs of
whitespace and discarding empty fragments. -/
def queryTokens (q : String) : List String :=
  ((splitRuns isWs q.data).map (fun l => (⟨l⟩ : String))).filter (fun t => !(t == ""))

/-- Modelled from the spec's words for the query-filter claim (refinement
comparison only): an entry matches a non-empty query iff every word token is
a case-insensitive substring of the alias text or of the declared-target
text. -/
def specMatches (e : SuggestionObject) (q : String) : Bool :=
  (queryTokens q).all (fun t => ciSubstr t e.«alias» || ciSubstr t e.path)

theorem splitRuns_ne_nil (p : Char → Bool) : ∀ l : List Char, splitRuns p l ≠ []
  | [] => by simp [splitRuns]
  | c :: cs => by
    simp only [splitRuns]
    split
    · cases cs with
      | nil => simp
      | cons d ds =>
        cases hd : p d with
        | true => simpa [hd] using splitRuns_ne_nil p (d :: ds)
        | false => simp [hd]
    · cases h : splitRuns p cs with
      | nil => simp
      | cons t ts => simp

theorem containsSub_nil (hay : List Char) : containsSub hay [] = true := by
  apply List.any_eq_true.mpr
  refine ⟨0, List.mem_range.mpr (Nat.succ_pos _), ?_⟩
  simp [List.isPrefixOf]

theorem isWs_lowerChar (c : Char) : isWs (lowerChar c) = isWs c := by
  unfold lowerChar
  split <;> rfl

theorem splitRuns_map (p : Char → Bool) (f : Char → Char)
    (hf : ∀ c, p (f c) = p c) (l : List Char) :
    splitRuns p (l.map f) = (splitRuns p l).map (List.map f) := by
  induction l with
  | nil => simp [splitRuns]
  | cons c cs ih =>
    simp only [List.map_cons, splitRuns, hf c]
    split
    · cases cs with
      | nil => simp
      | cons d ds =>
        simp only [List.map_cons, hf d]
        split
        · simpa using ih
        · simpa using ih
    · rw [ih]
      cases h : splitRuns p cs with
      | nil => exact absurd h (splitRuns_ne_nil p cs)
      | cons t ts => simp

theorem all_filter_of_dropped {α : Type} (p g : α → Bool) (l : List α)
    (h : ∀ x, p x = false → g x = true) :
    (l.filter p).all g = l.all g := by
  induction l with
  | nil => rfl
  | cons x xs ih =>
    by_cases hp : p x = true
    · simp [List.filter_cons, hp, ih]
    · have hpf : p x = false := by revert hp; cases p x <;> simp
      simp [List.filter_cons, hpf, ih, h x hpf]

theorem splitRuns_all_ws (p : Char → Bool) (l : List Char)
    (h : ∀ c ∈ l, p c = true) :
    ∀ t ∈ splitRuns p l, t = [] := by
  induction l with
  | nil => simp [splitRuns]
  | cons c cs ih =>
    have hc : p c = true := h c (List.mem_cons_self c cs)
    simp only [splitRuns, hc, if_true]
    cases cs with
    | nil => simp
    | cons d ds =>
      have hd : p d = true := h d (by simp)
      simp only [hd, if_true]
      exact ih (fun x hx => h x (List.mem_cons_of_mem c hx))

theorem all_congr_list {α : Type} (l : List α) (f g : α → Bool)
    (h : ∀ x ∈ l, f x = g x) : l.all f = l.all g := by
  induction l with
  | nil => rfl
  | cons x xs ih =>
    simp only [List.all_cons, h x (List.mem_cons_self x xs)]
    rw [ih (fun y hy => h y (List.mem_cons_of_mem x hy))]

theorem all_map_general {α β : Type} (l : List α) (f : α → β) (p : β → Bool) :
    (l.map f).all p = l.all (fun x => p (f x)) := by
  induction l with
  | nil => rfl
  | cons x xs ih => simp [List.all_cons, ih]

theorem specMatches_eq_all (e : SuggestionObject) (q : String) :
    specMatches e q = (splitRuns isWs q.data).all
      (fun t => containsSub (lowerStr e.«alias»).data (t.map lowerChar) ||
                containsSub (lowerStr e.path).data (t.map lowerChar)) := by
  unfold specMatches queryTokens ciSubstr
  rw [all_filter_of_dropped]
  · rw [all_map_general]
    rfl
  · intro x hx
    have hx' : x = "" := by
      have : (x == "") = true := by
        revert hx
        cases x == "" <;> simp
      exact eq_of_beq this
    subst hx'
    simp [show (lowerStr "").data = [] from rfl, containsSub_nil]

theorem entryMatches_eq_all (e : SuggestionObject) (q : String) (hq : q ≠ "") :
    entryMatches (some q) e = (splitRuns isWs q.data).all
      (fun t => containsSub (lowerStr e.«alias»).data (t.map lowerChar) ||
                containsSub (lowerStr e.path).data (t.map lowerChar)) := by
  have hq' : (q == "") = false := beq_eq_false_iff_ne.mpr hq
  simp only [entryMatches, hq', Bool.false_eq_true, if_false]
  rw [show (lowerStr q).data = q.data.map lowerChar from rfl,
    splitRuns_map isWs lowerChar isWs_lowerChar, List.all_map]
  rfl

/-- Claim C1: the query filter matches an entry iff every whitespace-delimited
token of the query is a case-insensitive substring of the alias text or of
the declared-target text (OR between the fields, AND across tokens); an empty
or absent query matches everything; against the alias "Cat Photo" with target
"img/cat.png", the query "cat png" matches and "cat jpg" does not. -/
theorem claim1_query_filter (e : SuggestionObject) (q : String) :
    (q ≠ "" → entryMatches (some q) e = specMatches e q) ∧
    entryMatches none e = true ∧
    entryMatches (some "") e = true ∧
    entryMatches (some "cat png") catEntry = true ∧
    specMatches catEntry "cat png" = true ∧
    entryMatches (some "cat jpg") catEntry = false ∧
    specMatches catEntry "cat jpg" = false := by
  refine ⟨?_, rfl, rfl, by decide, by decide, by decide, by decide⟩
  intro hq
  rw [entryMatches_eq_all e q hq, specMatches_eq_all e q]

/-- Witness for claim C1: the equivalence instantiated at the spec's example
entry and the query "cat png". -/
theorem claim1_query_filter_witness :
    entryMatches (some "cat png") catEntry = specMatches catEntry "cat png" :=
  (claim1_query_filter catEntry "cat png").1 (by decide)

theorem entryMatches_ws (q : String) (hq : q ≠ "")
    (hws : q.data.all isWs = true) (e : SuggestionObject) :
    entryMatches (some q) e = true := by
  rw [entryMatches_eq_all e q hq]
  apply List.all_eq_true.mpr
  intro t ht
  have htnil : t = [] :=
    splitRuns_all_ws isWs q.data (fun c hc => List.all_eq_true.mp hws c hc) t ht
  subst htnil
  simp [containsSub_nil]

/-- Claim C10: a non-empty, all-whitespace query matches every entry (only
the empty or absent filter string is the special match-everything case, and
splitting a whitespace-only string yields empty tokens, which are substrings
of everything), so a whitespace-only query produces the same suggestion set
as the empty query. -/
theorem claim10_whitespace_query (lnm : Bool) (host : Host) (files : List TFile)
    (ltr : Bool) (q : String) (hq : q ≠ "") (hws : q.data.all isWs = true) :
    (∀ e, entryMatches (some q) e = true) ∧
    getRedirectFiles lnm host files ltr (some q) =
      getRedirectFiles lnm host files ltr (some "") ∧
    getRedirectFiles lnm host files ltr (some q) =
      getRedirectFiles lnm host files ltr none := by
  have hmatch : ∀ e, entryMatches (some q) e = true :=
    fun e => entryMatches_ws q hq hws e
  have hkeep : ∀ fs2 : Option String, (∀ e, entryMatches fs2 e = true) →
      entryKeep (some q) = entryKeep fs2 := by
    intro fs2 h2
    funext x
    cases x with
    | none => rfl
    | some e => simp [entryKeep, hmatch e, h2 e]
  refine ⟨hmatch, ?_, ?_⟩
  · have h := hkeep (some "") (fun e => rfl)
    have hfe : fileEntries host ltr (some q) = fileEntries host ltr (some "") := by
      funext file
      simp only [fileEntries, h]
    simp only [getRedirectFiles, redirectsGathered, hfe]
  · have h := hkeep none (fun e => rfl)
    have hfe : fileEntries host ltr (some q) = fileEntries host ltr none := by
      funext file
      simp only [fileEntries, h]
    simp only [getRedirectFiles, redirectsGathered, hfe]

/-- Witness for claim C10: a two-space query returns the same suggestions as
the empty query on the end-to-end scenario collection. -/
theorem claim10_whitespace_query_witness :
    getRedirectFiles false host9 [fileA, fileImg] false (some "  ") =
      getRedirectFiles false host9 [fileA, fileImg] false none :=
  (claim10_whitespace_query false host9 [fileA, fileImg] false "  "
    (by decide) (by decide)).2.2

theorem mem_getRedirectFiles {lnm : Bool} {host : Host} {files : List TFile}
    {ltr : Bool} {fs : Option String} {e : SuggestionObject}
    (h : e ∈ getRedirectFiles lnm host files ltr fs) :
    ∃ f ∈ files, ∃ a ∈ aliasesOf (host.metaOf f) ++ [f.basename],
      ∃ r ∈ redirectsOf (host.metaOf f) ltr f.path, ∃ tf,
        a ≠ "" ∧ host.resolve r f.path = some tf ∧
        e = mkEntry host.embed f a r tf ∧ f ≠ tf ∧ entryMatches fs e = true := by
  have hg : e ∈ redirectsGathered host files ltr fs := by
    cases lnm with
    | true =>
      have h' : e ∈ redirectsGathered host files ltr fs ∧
          ¬e.extension = "" ∧ ¬e.extension = "md" := by
        simpa [getRedirectFiles] using h
      exact h'.1
    | false => simpa [getRedirectFiles] using h
  simp only [redirectsGathered] at hg
  obtain ⟨x, hxmem, hxe⟩ := List.mem_filterMap.mp hg
  have hx : x = some e := hxe
  subst hx
  obtain ⟨l, hlmem, hel⟩ := List.mem_flatten.mp hxmem
  have hlf : l ∈ files.map (fileEntries host ltr fs) := (List.mem_filter.mp hlmem).1
  obtain ⟨f, hf, hfl⟩ := List.mem_map.mp hlf
  subst hfl
  simp only [fileEntries] at hel
  obtain ⟨hflat, hkeep⟩ := List.mem_filter.mp hel
  simp only [entryKeep] at hkeep
  have hne : e.originTFile ≠ e.redirectTFile ∧ entryMatches fs e = true := by
    by_cases hq : e.originTFile = e.redirectTFile
    · rw [if_pos hq] at hkeep
      exact absurd hkeep (by simp)
    · rw [if_neg hq] at hkeep
      exact ⟨hq, hkeep⟩
  obtain ⟨row, hrow, herow⟩ := List.mem_flatten.mp hflat
  obtain ⟨a, ha, harow⟩ := List.mem_map.mp hrow
  subst harow
  by_cases haz : a = ""
  · simp only [aliasRow, if_pos haz] at herow
    simp at herow
  · simp only [aliasRow, if_neg haz] at herow
    obtain ⟨r, hr, hre⟩ := List.mem_map.mp herow
    cases hres : host.resolve r f.path with
    | none =>
      simp only [resolveEntry, hres] at hre
      exact absurd hre (by simp)
    | some tf =>
      simp only [resolveEntry, hres] at hre
      have he : e = mkEntry host.embed f a r tf := (Option.some.inj hre).symm
      have h1 : e.originTFile = f := by rw [he]; simp [mkEntry]
      have h2 : e.redirectTFile = tf := by rw [he]; simp [mkEntry]
      refine ⟨f, hf, a, ha, r, hr, tf, haz, hres, he, ?_, hne.2⟩
      intro hft
      exact hne.1 (by rw [h1, h2, hft])

/-- Claim C2: every entry returned by the resolver has a present resolved
target: resolving the entry's declared target (its `path` field) against its
origin document's path succeeds and yields exactly the entry's
`redirectTFile`; dangling candidates never appear in the output. -/
theorem claim2_no_dangling_targets (lnm : Bool) (host : Host)
    (files : List TFile) (ltr : Bool) (fs : Option String)
    (e : SuggestionObject) (h : e ∈ getRedirectFiles lnm host files ltr fs) :
    host.resolve e.path e.originTFile.path = some e.redirectTFile := by
  obtain ⟨f, _, a, _, r, _, tf, _, hres, he, _, _⟩ := mem_getRedirectFiles h
  subst he
  simpa [mkEntry] using hres

/-- Witness for claim C2: the end-to-end scenario entry resolves to its
recorded redirect target. -/
theorem claim2_no_dangling_targets_witness :
    host9.resolve entryA9.path entryA9.originTFile.path =
      some entryA9.redirectTFile :=
  claim2_no_dangling_targets false host9 [fileA, fileImg] false none entryA9
    (by decide)

/-- Claim C3: no surfaced entry is a self-redirect: in every entry returned
by the resolver, the origin document differs from the resolved target. -/
theorem claim3_no_self_redirect (lnm : Bool) (host : Host)
    (files : List TFile) (ltr : Bool) (fs : Option String)
    (e : SuggestionObject) (h : e ∈ getRedirectFiles lnm host files ltr fs) :
    e.originTFile ≠ e.redirectTFile := by
  obtain ⟨f, _, a, _, r, _, tf, _, hres, he, hft, _⟩ := mem_getRedirectFiles h
  subst he
  simpa [mkEntry] using hft

/-- Witness for claim C3: the end-to-end scenario entry's origin differs
from its target. -/
theorem claim3_no_self_redirect_witness :
    entryA9.originTFile ≠ entryA9.redirectTFile :=
  claim3_no_self_redirect false host9 [fileA, fileImg] false none entryA9
    (by decide)

theorem redirectsOf_of_truthy (fm : FrontMatter) (ltr : Bool) (path : String)
    (ht : truthyFM fm.redirects = true) :
    ∃ v, fm.redirects = some v ∧
      redirectsOf (some fm) ltr path = fmToList v := by
  cases hv : fm.redirects with
  | none => rw [hv] at ht; simp [truthyFM] at ht
  | some v =>
    rw [hv] at ht
    refine ⟨v, rfl, ?_⟩
    have hb : (some fm).bind FrontMatter.redirects = some v := by simp [hv]
    simp [redirectsOf, selectFM, hb, ht]

/-- Counterexample to claim C7 as stated: F.md declares both
`redirect: "a.png"` and `redirects: "b.png"`, and the resolver's only output
entry carries the plural field's target "b.png"; no entry carries the
singular field's target "a.png". -/
theorem claim7_counterexample :
    fmF.redirect = some (FMValue.str "a.png") ∧
    fmF.redirects = some (FMValue.str "b.png") ∧
    getRedirectFiles false host7 [fileF] true none =
      [mkEntry host7.embed fileF "F" "b.png" fileTb] ∧
    (mkEntry host7.embed fileF "F" "b.png" fileTb).path = "b.png" ∧
    ¬ ∃ e ∈ getRedirectFiles false host7 [fileF] true none, e.path = "a.png" := by
  refine ⟨rfl, rfl, by decide, rfl, by decide⟩

/-- Claim C7 (amended): the code consults the plural `redirects` field first
and the singular `redirect` field only when the plural one is absent or
falsy (the opposite order from alias/aliases); hence whenever a document's
`redirects` field is truthy — in particular when both fields are declared —
every output entry's declared target comes from the plural field. -/
theorem claim7_plural_redirect_precedence (lnm : Bool) (host : Host)
    (file : TFile) (ltr : Bool) (fs : Option String) (fm : FrontMatter)
    (e : SuggestionObject) (hfm : host.metaOf file = some fm)
    (ht : truthyFM fm.redirects = true)
    (h : e ∈ getRedirectFiles lnm host [file] ltr fs) :
    ∃ v, fm.redirects = some v ∧ e.path ∈ fmToList v := by
  obtain ⟨f, hf, a, ha, r, hr, tf, haz, hres, he, hft, hm⟩ := mem_getRedirectFiles h
  have hffile : f = file := by simpa using hf
  subst hffile
  rw [hfm] at hr
  obtain ⟨v, hv, hrd⟩ := redirectsOf_of_truthy fm ltr f.path ht
  rw [hrd] at hr
  refine ⟨v, hv, ?_⟩
  have hp : e.path = r := by rw [he]; simp [mkEntry]
  rw [hp]
  exact hr

/-- Witness for claim C7 (amended): in the both-fields scenario the output
entry's declared target "b.png" is a member of the plural field's list. -/
theorem claim7_plural_redirect_precedence_witness :
    ∃ v, fmF.redirects = some v ∧
      (mkEntry host7.embed fileF "F" "b.png" fileTb).path ∈ fmToList v :=
  claim7_plural_redirect_precedence false host7 fileF true none fmF
    (mkEntry host7.embed fileF "F" "b.png" fileTb) (by decide) (by decide)
    (by decide)

/-- Counterexample to claim C6 as stated: with the limit-to-non-markdown
option enabled, the gathered entry for declared target "x." has extension ""
(which differs from "md") and yet is removed, because the filter also
requires a truthy extension — so the final set is not exactly the entries
whose extension differs from "md". -/
theorem claim6_counterexample :
    redirectsGathered host6 [fileC] true none =
      [mkEntry host6.embed fileC "C" "x." fileX] ∧
    (mkEntry host6.embed fileC "C" "x." fileX).extension = "" ∧
    (mkEntry host6.embed fileC "C" "x." fileX).extension ≠ "md" ∧
    getRedirectFiles true host6 [fileC] true none = [] := by
  refine ⟨by decide, rfl, by decide, by decide⟩

/-- Claim C6 (amended): with the limit-to-non-markdown option enabled, the
final suggestion set is exactly the gathered entries whose extension is
non-empty (truthy) and not exactly equal to "md" under case-sensitive
comparison; so extensions such as "MD" or "xmd" are retained and the empty
extension is removed along with "md". -/
theorem claim6_non_markdown_filter (host : Host) (files : List TFile)
    (ltr : Bool) (fs : Option String) (e : SuggestionObject) :
    e ∈ getRedirectFiles true host files ltr fs ↔
      e ∈ redirectsGathered host files ltr fs ∧
        e.extension ≠ "" ∧ e.extension ≠ "md" := by
  simp [getRedirectFiles, List.mem_filter, and_assoc]

/-- Counterexample to claim C8 as stated: B.md declares the alias "n" twice
for the same target "t.png", and the suggestion list handed to the presenter
contains two entries with the same alias text and the same target — exact
(alias, target) duplicates are not collapsed. -/
theorem claim8_counterexample :
    getRedirectFiles false host8 [fileB] true none =
      [mkEntry host8.embed fileB "n" "t.png" fileT,
       mkEntry host8.embed fileB "n" "t.png" fileT,
       mkEntry host8.embed fileB "B" "t.png" fileT] ∧
    (mkEntry host8.embed fileB "n" "t.png" fileT).«alias» = "n" ∧
    (mkEntry host8.embed fileB "n" "t.png" fileT).path = "t.png" := by
  refine ⟨by decide, rfl, rfl⟩

/-- Claim C8 (amended): entries sharing the same resolved target but arising
from different alias spellings are all kept as distinct suggestions, and
exact (alias, target) duplicates are kept as well — the resolver performs no
de-duplication of the suggestion list at all. -/
theorem claim8_no_deduplication :
    (getRedirectFiles false host8b [fileB] true none).map
        (fun e => (e.«alias», e.path)) =
      [("m", "t.png"), ("n", "t.png"), ("B", "t.png")] ∧
    (getRedirectFiles false host8b [fileB] true none).map
        (fun e => e.redirectTFile) = [fileT, fileT, fileT] ∧
    (getRedirectFiles false host8 [fileB] true none).map
        (fun e => (e.«alias», e.path)) =
      [("n", "t.png"), ("n", "t.png"), ("B", "t.png")] := by
  refine ⟨by decide, by decide, by decide⟩

/-- Counterexample to claim C9 as stated: in the end-to-end scenario with
limitToRedirectedFiles false, the whole result is the single entry
originating from A.md; the candidate entry for img/x.png referencing itself
is dropped by the self-redirect rule, so no entry with origin img/x.png
appears. -/
theorem claim9_counterexample :
    getRedirectFiles false host9 [fileA, fileImg] false none = [entryA9] ∧
    entryA9.originTFile = fileA ∧ fileA ≠ fileImg ∧
    ¬ ∃ e ∈ getRedirectFiles false host9 [fileA, fileImg] false none,
        e.originTFile = fileImg := by
  refine ⟨by decide, rfl, by decide, by decide⟩

/-- Claim C9 (amended): the end-to-end scenario yields exactly one entry,
with alias "A" (equal to A.md's basename), path "img/x.png" and isAlias
false; img/x.png's own self-entry candidate (whose alias would be its
basename "x") is generated when limitToRedirectedFiles is false but excluded
by the self-redirect rule, so it does not appear. -/
theorem claim9_end_to_end :
    getRedirectFiles false host9 [fileA, fileImg] false none = [entryA9] ∧
    entryA9.«alias» = "A" ∧ entryA9.path = "img/x.png" ∧
    entryA9.isAlias = false ∧ entryA9.«alias» = fileA.basename ∧
    fileImg.basename = "x" := by
  refine ⟨by decide, rfl, rfl, by decide, rfl, rfl⟩

theorem getLast_of_sorted_max (l : List Nat) (hp : l.Pairwise (· < ·))
    (m : Nat) (h : l.getLast? = some m) : ∀ j ∈ l, j ≤ m := by
  obtain ⟨ys, rfl⟩ := List.getLast?_eq_some_iff.mp h
  intro j hj
  rcases List.mem_append.mp hj with hy | hm
  · exact Nat.le_of_lt ((List.pairwise_append.mp hp).2.2 j hy m (by simp))
  · simp at hm
    omega

theorem lastIndexOfQ_some (hay needle : List Char) (i : Nat)
    (hne : needle ≠ [])
    (h : lastIndexOfQ hay needle = some i) :
    needle.isPrefixOf (hay.drop i) = true ∧
    ∀ j, needle.isPrefixOf (hay.drop j) = true → j ≤ i := by
  have hmem : i ∈ (List.range (hay.length + 1)).filter
      (fun i => needle.isPrefixOf (hay.drop i)) :=
    List.mem_of_getLast?_eq_some h
  have hp : ((List.range (hay.length + 1)).filter
      (fun i => needle.isPrefixOf (hay.drop i))).Pairwise (· < ·) :=
    List.Pairwise.sublist (List.filter_sublist _) (List.pairwise_lt_range _)
  refine ⟨(List.mem_filter.mp hmem).2, ?_⟩
  intro j hj
  have hjlen : j ≤ hay.length := by
    by_contra hgt
    have hd : hay.drop j = [] := List.drop_eq_nil_of_le (by omega)
    rw [hd] at hj
    cases needle with
    | nil => exact hne rfl
    | cons c cs => exact absurd hj (by simp [List.isPrefixOf])
  have hjmem : j ∈ (List.range (hay.length + 1)).filter
      (fun i => needle.isPrefixOf (hay.drop i)) :=
    List.mem_filter.mpr ⟨List.mem_range.mpr (by omega), hj⟩
  exact getLast_of_sorted_max _ hp i h j hjmem

theorem lastIndexOfQ_none (hay needle : List Char)
    (h : lastIndexOfQ hay needle = none) :
    ∀ j, ¬needle.isPrefixOf (hay.drop j) = true := by
  have hnil : (List.range (hay.length + 1)).filter
      (fun i => needle.isPrefixOf (hay.drop i)) = [] :=
    List.getLast?_eq_none_iff.mp h
  have hall := List.filter_eq_nil_iff.mp hnil
  have h0 : ¬needle.isPrefixOf (hay.drop 0) = true :=
    hall 0 (List.mem_range.mpr (Nat.succ_pos _))
  intro j hj
  by_cases hjlen : j ≤ hay.length
  · exact hall j (List.mem_range.mpr (by omega)) hj
  · have hd : hay.drop j = [] := List.drop_eq_nil_of_le (by omega)
    rw [hd] at hj
    cases needle with
    | nil => exact h0 (by simp [List.isPrefixOf])
    | cons c cs => exact absurd hj (by simp [List.isPrefixOf])

theorem str_data_ne_nil {s : String} (h : s ≠ "") : s.data ≠ [] := by
  intro hd
  apply h
  cases s with
  | mk d =>
    have hd' : d = [] := hd
    subst hd'
    rfl

/-- Counterexample to claim C4 as stated: in the line "r[a r[b" with the
cursor at offset 7 and trigger "r[", the first occurrence of the trigger is
at offset 0, but onTrigger reports start 4 (the last occurrence) and query
"b" rather than start 0 and query "a r[b". -/
theorem claim4_counterexample :
    onTrigger "r[a r[b" 7 "r[" = some ⟨4, 7, "b"⟩ ∧
    ("r[").data.isPrefixOf ((("r[a r[b").data.take 7).drop 0) = true ∧
    (4 : Nat) ≠ 0 ∧ ("b" : String) ≠ "a r[b" := by
  refine ⟨by decide, by decide, by decide, by decide⟩

/-- Claim C4 (amended): when the (non-empty) trigger string occurs as a
literal substring of the text preceding the cursor, onTrigger reports start
equal to the offset of the LAST such occurrence and query equal to the text
strictly between the end of that last occurrence and the cursor; when the
trigger does not occur (or is empty, making the regex match falsy), onTrigger
signals 'not triggered'. -/
theorem claim4_trigger_last_occurrence (line : String) (cursorCh : Nat)
    (trigger : String) :
    (∀ info, onTrigger line cursorCh trigger = some info →
      trigger ≠ "" ∧
      trigger.data.isPrefixOf ((line.data.take cursorCh).drop info.start) = true ∧
      (∀ j, trigger.data.isPrefixOf ((line.data.take cursorCh).drop j) = true →
        j ≤ info.start) ∧
      info.query =
        ⟨(line.data.take cursorCh).drop (info.start + trigger.data.length)⟩) ∧
    ((trigger = "" ∨
        ∀ j, ¬trigger.data.isPrefixOf ((line.data.take cursorCh).drop j) = true) →
      onTrigger line cursorCh trigger = none) := by
  constructor
  · intro info hinfo
    unfold onTrigger at hinfo
    by_cases htr : trigger = ""
    · rw [if_pos htr] at hinfo
      cases hinfo
    · rw [if_neg htr] at hinfo
      cases hli : lastIndexOfQ (line.data.take cursorCh) trigger.data with
      | none => rw [hli] at hinfo; cases hinfo
      | some i =>
        rw [hli] at hinfo
        injection hinfo with hinj
        subst hinj
        obtain ⟨hpre, hmax⟩ := lastIndexOfQ_some (line.data.take cursorCh)
          trigger.data i (str_data_ne_nil htr) hli
        exact ⟨htr, hpre, hmax, rfl⟩
  · intro hcond
    unfold onTrigger
    by_cases htr : trigger = ""
    · rw [if_pos htr]
    · rw [if_neg htr]
      rcases hcond with htr' | hnone
      · exact absurd htr' htr
      · cases hli : lastIndexOfQ (line.data.take cursorCh) trigger.data with
        | none => rfl
        | some i =>
          obtain ⟨hpre, _⟩ := lastIndexOfQ_some (line.data.take cursorCh)
            trigger.data i (str_data_ne_nil htr) hli
          exact absurd hpre (hnone i)

/-- Witness for claim C4 (amended): in "see r[fo" with cursor 8 and trigger
"r[", the reported query is the text after the last occurrence. -/
theorem claim4_trigger_last_occurrence_witness :
    ("fo" : String) =
      ⟨(("see r[fo").data.take 8).drop (4 + ("r[").data.length)⟩ :=
  ((claim4_trigger_last_occurrence "see r[fo" 8 "r[").1 ⟨4, 8, "fo"⟩
    (by decide)).2.2.2

/-- Counterexample to claim C5 as stated: the trigger "r[[" ends in k = 2
opening brackets and the two characters after the cursor are "]]", yet
onTrigger reports end = 8 (the cursor offset), not cursor + k = 10: the code
compares the single character after the cursor against the whole string
"]]", which can never match. -/
theorem claim5_counterexample :
    trailingOpenBrackets "r[[" = 2 ∧
    (("see r[[x]]").data.drop 8).take 2 = [']', ']'] ∧
    onTrigger "see r[[x]]" 8 "r[[" = some ⟨4, 8, "x"⟩ ∧
    (8 : Nat) ≠ 8 + 2 := by
  refine ⟨by decide, by decide, by decide, by decide⟩

/-- Claim C5 (amended): in a triggered scan, the reported end offset is
cursor + 1 exactly when the trigger's trailing run of '[' characters has
length exactly 1 and the character immediately after the cursor is ']'; in
every other case — including trailing runs of two or more '[' — end equals
the cursor offset. -/
theorem claim5_bracket_absorption (line : String) (cursorCh : Nat)
    (trigger : String) (info : TriggerInfo)
    (h : onTrigger line cursorCh trigger = some info) :
    info.endCh =
      if trailingOpenBrackets trigger = 1 ∧
          (line.data.drop cursorCh).take 1 = [']'] then
        cursorCh + 1
      else cursorCh := by
  unfold onTrigger at h
  by_cases htr : trigger = ""
  · rw [if_pos htr] at h
    cases h
  · rw [if_neg htr] at h
    cases hli : lastIndexOfQ (line.data.take cursorCh) trigger.data with
    | none => rw [hli] at h; cases h
    | some i =>
      rw [hli] at h
      injection h with hinj
      subst hinj
      show (if 1 ≤ trailingOpenBrackets trigger ∧ cursorCh < line.data.length ∧
            (line.data.drop cursorCh).take 1 =
              List.replicate (trailingOpenBrackets trigger) ']' then
          cursorCh + 1 else cursorCh) =
        if trailingOpenBrackets trigger = 1 ∧
            (line.data.drop cursorCh).take 1 = [']'] then
          cursorCh + 1 else cursorCh
      by_cases hc : trailingOpenBrackets trigger = 1 ∧
          (line.data.drop cursorCh).take 1 = [']']
      · rw [if_pos hc]
        obtain ⟨hk, htake⟩ := hc
        have hlen : cursorCh < line.data.length := by
          by_contra hge
          have hnil : line.data.drop cursorCh = [] :=
            List.drop_eq_nil_of_le (by omega)
          rw [hnil] at htake
          simp at htake
        rw [if_pos ⟨by omega, hlen, by rw [hk]; simpa using htake⟩]
      · rw [if_neg hc]
        by_cases hcode : 1 ≤ trailingOpenBrackets trigger ∧
            cursorCh < line.data.length ∧
            (line.data.drop cursorCh).take 1 =
              List.replicate (trailingOpenBrackets trigger) ']'
        · exfalso
          obtain ⟨h1, h2, h3⟩ := hcode
          have hlen1 : ((line.data.drop cursorCh).take 1).length ≤ 1 := by
            simp [List.length_take]
          rw [h3] at hlen1
          have hk1 : trailingOpenBrackets trigger ≤ 1 := by simpa using hlen1
          have hk : trailingOpenBrackets trigger = 1 := by omega
          apply hc
          refine ⟨hk, ?_⟩
          rw [hk] at h3
          simpa using h3
        · rw [if_neg hcode]

/-- Witness for claim C5 (amended): in "see r[f]" with cursor 7 and trigger
"r[", the single trailing bracket and the ']' after the cursor give end 8. -/
theorem claim5_bracket_absorption_witness :
    (TriggerInfo.mk 4 8 "f").endCh =
      if trailingOpenBrackets "r[" = 1 ∧
          (("see r[f]").data.drop 7).take 1 = [']'] then 7 + 1 else 7 :=
  claim5_bracket_absorption "see r[f]" 7 "r[" ⟨4, 8, "f"⟩ (by decide)

/-- Witness for claim C6 (amended): the membership characterization
instantiated at the empty-extension scenario entry. -/
theorem claim6_non_markdown_filter_witness :
    mkEntry host6.embed fileC "C" "x." fileX ∈
        getRedirectFiles true host6 [fileC] true none ↔
      mkEntry host6.embed fileC "C" "x." fileX ∈
          redirectsGathered host6 [fileC] true none ∧
        (mkEntry host6.embed fileC "C" "x." fileX).extension ≠ "" ∧
        (mkEntry host6.embed fileC "C" "x." fileX).extension ≠ "md" :=
  claim6_non_markdown_filter host6 [fileC] true none
    (mkEntry host6.embed fileC "C" "x." fileX)
